import Mathlib

/-! Shallow embedding of the core of `src/app.py`, a Flask financial-dashboard
application.  Python strings are modelled as `List Char`, Python floats as
exact rationals `ℚ` (the claims under study only involve values where
double-precision rounding is invisible at two printed decimals), and the
SQLAlchemy table of `FinancialData` rows as a list of records in insertion
order. -/

/-- Python strings are modelled as lists of characters. -/
abbrev Str := List Char

/-- Numeric value of an ASCII digit character (code point minus 48). -/
def digitVal (c : Char) : Nat := c.toNat - 48

/-- Test for the regex character class `[0-9]` (code points 48..57). -/
def isDigitCh (c : Char) : Bool := 48 ≤ c.toNat && c.toNat ≤ 57

/-- Whitespace set of Python `str.strip` (space, tab, LF, CR, VT, FF). -/
def isPySpace (c : Char) : Bool :=
  c == ' ' || c == '\t' || c == '\n' || c == '\r' || c.toNat == 11 || c.toNat == 12

/-- Python `str.strip`: drop leading and trailing whitespace. -/
def pyStrip (l : Str) : Str :=
  ((l.dropWhile isPySpace).reverse.dropWhile isPySpace).reverse

/-- Python `str.replace(pat, rep)` for a single-character pattern. -/
def replaceChar (pat rep : Char) (l : Str) : Str :=
  l.map (fun c => if c = pat then rep else c)

/-- Python `str.replace(pat, '')` for a single-character pattern. -/
def removeChar (pat : Char) (l : Str) : Str :=
  l.filter (fun c => c != pat)

/-- Python `str.replace('R$', '')`: remove occurrences of `R$`, scanning
left to right, as in `process_currency` (src/app.py line 154). -/
def removeRS : Str → Str
  | [] => []
  | [c] => [c]
  | c :: d :: rest =>
    if c = 'R' ∧ d = '$' then removeRS rest
    else c :: removeRS (d :: rest)

/-- Python `str.split('/')`. -/
def splitSlash : Str → List Str
  | [] => [[]]
  | c :: rest =>
    if c = '/' then [] :: splitSlash rest
    else
      match splitSlash rest with
      | [] => [[c]]
      | h :: t => (c :: h) :: t

/-- Python `str.zfill(2)` on a month string carrying no sign character. -/
def zfill2 (l : Str) : Str :=
  if l.length < 2 then List.replicate (2 - l.length) '0' ++ l else l

/-- Base-10 digits of `n`, least significant first, by fuelled recursion. -/
def digitsLE : Nat → Nat → List Nat
  | 0, _ => []
  | fuel + 1, n => if n = 0 then [] else n % 10 :: digitsLE fuel (n / 10)

/-- Decimal digits of a natural number, least significant first; nonempty. -/
def natDigitsLE (n : Nat) : List Nat :=
  if n = 0 then [0] else digitsLE n n

/-- Decimal rendering of a natural number as digit characters. -/
def natChars (n : Nat) : Str := ((natDigitsLE n).map Nat.digitChar).reverse

/-- Two-digit zero-padded rendering used for the two decimal places. -/
def two0 (n : Nat) : Str := [Nat.digitChar (n / 10), Nat.digitChar (n % 10)]

/-- Insert a separator after every three digits of a least-significant-first
digit string, as the `,` option of Python format specs does. -/
def group3 : Str → Str
  | a :: b :: c :: d :: rest => a :: b :: c :: ',' :: group3 (d :: rest)
  | l => l

/-- Grouped integer-part rendering of Python `f"{v:,.2f}"`. -/
def commaNat (n : Nat) : Str := (group3 ((natDigitsLE n).map Nat.digitChar)).reverse

/-- Value of a big-endian digit-character string. -/
def natOfDigits (l : Str) : Nat := l.foldl (fun a c => 10 * a + digitVal c) 0

/-- Sign handling of Python `float(str)`: an optional leading `-` or `+`. -/
def splitSign (l : Str) : Bool × Str :=
  match l with
  | [] => (false, [])
  | c :: r => if c = '-' then (true, r) else if c = '+' then (false, r) else (false, c :: r)

/-- Python `float(str)` on plain decimal notation: surrounding whitespace,
an optional sign, integer digits, an optional point and fraction digits.
Exponent, `inf`/`nan` and underscore notations are not exercised by this
code path and are not modelled. -/
def pyFloat? (l0 : Str) : Option ℚ :=
  let l := pyStrip l0
  let s := splitSign l
  let ip := (s.2).takeWhile isDigitCh
  match (s.2).dropWhile isDigitCh with
  | [] =>
    if ip.isEmpty then none
    else some (if s.1 then -(natOfDigits ip : ℚ) else (natOfDigits ip : ℚ))
  | '.' :: r2 =>
    let fp := r2.takeWhile isDigitCh
    if (r2.dropWhile isDigitCh).isEmpty && !(ip.isEmpty && fp.isEmpty) then
      let v : ℚ := (natOfDigits ip : ℚ) + (natOfDigits fp : ℚ) / ((10 : ℚ) ^ fp.length)
      some (if s.1 then -v else v)
    else none
  | _ => none

/-- Python `f"{v:,.2f}"`: sign taken from the value, grouped integer part,
a decimal point, and two fraction digits.  CPython's double-precision
rounding is modelled by exact rational rounding; the two agree on every
amount with at most two decimals, which is the scope of the claims. -/
def pyCommaFmt2 (v : ℚ) : Str :=
  (if v < 0 then ['-'] else []) ++
    commaNat ((round (v * 100) : ℤ).natAbs / 100) ++
    '.' :: two0 ((round (v * 100) : ℤ).natAbs % 100)

/-- Python `f"{v:.2f}"` (no grouping), as used for `revenue_result`. -/
def pyFmt2 (v : ℚ) : Str :=
  (if v < 0 then ['-'] else []) ++
    natChars ((round (v * 100) : ℤ).natAbs / 100) ++
    '.' :: two0 ((round (v * 100) : ℤ).natAbs % 100)

/-- Python `f"{v:+.2f}"` (explicit sign), as used for the variation text. -/
def pySignedFmt2 (v : ℚ) : Str :=
  (if v < 0 then ['-'] else ['+']) ++
    natChars ((round (v * 100) : ℤ).natAbs / 100) ++
    '.' :: two0 ((round (v * 100) : ℤ).natAbs % 100)

/-- Currency rendering of `format_currency` (src/app.py lines 226-230):
Python `f'R$ {float(value):,.2f}'` followed by
`.replace(',', '_').replace('.', ',').replace('_', '.')`, which swaps the
separator conventions via the `_` placeholder. -/
def format_currency (v : ℚ) : Str :=
  replaceChar '_' '.' (replaceChar '.' ',' (replaceChar ',' '_' (("R$ ".data) ++ pyCommaFmt2 v)))

/-- JSON scalar payload values as read from `request.json`.  Booleans,
arrays and objects are not exercised by the claims and are left out. -/
inductive JVal where
  | num (q : ℚ)
  | str (s : Str)
  | null
deriving DecidableEq

/-- Currency ingestion of the create path (`process_currency`,
src/app.py lines 151-159):
`float(value.replace('R$', '').replace('.', '').replace(',', '.').strip())`
where `ValueError` and `AttributeError` fall back to `0.0`.  A non-string
value (a raw JSON number, or `null`) has no `.replace` attribute, so the
`AttributeError` branch yields zero for it. -/
def process_currency (v : JVal) : ℚ :=
  match v with
  | .num _ => 0
  | .null => 0
  | .str s =>
    match pyFloat? (pyStrip (replaceChar ',' '.' (removeChar '.' (removeRS s)))) with
    | some q => q
    | none => 0

/-- One row of the `financial_data` table (src/app.py lines 30-62): the
owning user, the canonical `MM/YYYY` period string, and the eleven monetary
columns.  The `id` and timestamp columns play no role in any claim. -/
structure FinancialData where
  user_id : Nat
  reference_date : Str
  cash_balance : ℚ
  bank_balance : ℚ
  accounts_receivable : ℚ
  inventory_balance : ℚ
  other_credits : ℚ
  fixed_assets : ℚ
  investments : ℚ
  accounts_payable : ℚ
  loans_financing : ℚ
  installments_payable : ℚ
  total_sales : ℚ
deriving DecidableEq

/-- Snapshot store: the table rows in insertion (rowid) order. -/
abbrev Store := List FinancialData

/-- Date normalization of `FinancialData.normalize_date` (src/app.py lines
48-56): strip, split on `/`, zero-pad the month to two digits, rejoin; the
bare `except` returns the input unchanged on any failure (in particular
when the split does not produce exactly two parts). -/
def normalize_date (s : Str) : Str :=
  match splitSlash (pyStrip s) with
  | [m, y] => zfill2 m ++ '/' :: y
  | _ => s

/-- Test of the create-path regex `^(0[1-9]|1[0-2])/20[0-9]{2}$`
(src/app.py line 126), written over the seven characters of the candidate
string with the character classes as code-point ranges. -/
def validatePeriod (l : Str) : Bool :=
  match l with
  | [a, b, s, c2, c3, c4, c5] =>
    s == '/' && c2 == '2' && c3 == '0' &&
      ((a == '0' && (49 ≤ b.toNat && b.toNat ≤ 57)) ||
       (a == '1' && (48 ≤ b.toNat && b.toNat ≤ 50))) &&
      isDigitCh c4 && isDigitCh c5
  | _ => false

/-- JSON body of `POST /api/financial-data` and `PUT /api/financial-data`:
the reference date plus the eleven monetary fields.  All keys are modelled
as present (a missing key raises `KeyError`, answered with HTTP 400 on both
paths; no claim depends on it). -/
structure Payload where
  reference_date : Str
  cash_balance : JVal
  bank_balance : JVal
  accounts_receivable : JVal
  inventory_balance : JVal
  other_credits : JVal
  fixed_assets : JVal
  investments : JVal
  accounts_payable : JVal
  loans_financing : JVal
  installments_payable : JVal
  total_sales : JVal
deriving DecidableEq

/-- Monetary fields of a payload, in the order the handlers read them. -/
def fieldVals (p : Payload) : List JVal :=
  [p.cash_balance, p.bank_balance, p.accounts_receivable, p.inventory_balance,
   p.other_credits, p.fixed_assets, p.investments, p.accounts_payable,
   p.loans_financing, p.installments_payable, p.total_sales]

/-- Outcome of the create handler, mirroring its distinct JSON responses:
the invalid-format message, the duplicate-month message, and success. -/
inductive AddResult where
  | invalidPeriod
  | duplicatePeriod
  | created
deriving DecidableEq

/-- Create handler `add_financial_data` (src/app.py lines 110-204):
normalize the date (strip, split on `/`, `zfill(2)` the month), check the
regex, reject a duplicate `(user_id, reference_date)` row, then build the
row through `process_currency` on every monetary field and append it.  The
`FinancialData.__init__` normalization is applied again on construction.
The `strptime` check after the regex always succeeds when the regex does,
so it adds nothing to the model. -/
def add_financial_data (s : Store) (uid : Nat) (p : Payload) : AddResult × Store :=
  match splitSlash (pyStrip p.reference_date) with
  | [m, y] =>
    let norm := zfill2 m ++ '/' :: y
    if validatePeriod norm then
      match s.find? (fun r => r.user_id == uid && r.reference_date == norm) with
      | some _ => (.duplicatePeriod, s)
      | none =>
        (.created, s ++ [{
          user_id := uid
          reference_date := normalize_date norm
          cash_balance := process_currency p.cash_balance
          bank_balance := process_currency p.bank_balance
          accounts_receivable := process_currency p.accounts_receivable
          inventory_balance := process_currency p.inventory_balance
          other_credits := process_currency p.other_credits
          fixed_assets := process_currency p.fixed_assets
          investments := process_currency p.investments
          accounts_payable := process_currency p.accounts_payable
          loans_financing := process_currency p.loans_financing
          installments_payable := process_currency p.installments_payable
          total_sales := process_currency p.total_sales }])
    else (.invalidPeriod, s)
  | _ => (.invalidPeriod, s)

/-- Lexicographic comparison of strings by code point, the order SQLite
applies to the `reference_date` text column in `ORDER BY`. -/
def lexLe : Str → Str → Bool
  | [], _ => true
  | _ :: _, [] => false
  | a :: as, b :: bs =>
    if a.toNat < b.toNat then true
    else if a.toNat = b.toNat then lexLe as bs
    else false

/-- Row order of `ORDER BY reference_date` (ascending). -/
def rowLe (a b : FinancialData) : Prop := lexLe a.reference_date b.reference_date = true

/-- Row order of `ORDER BY reference_date DESC`. -/
def rowGe (a b : FinancialData) : Prop := lexLe b.reference_date a.reference_date = true

instance : DecidableRel rowLe := fun _a _b => inferInstanceAs (Decidable (_ = true))

instance : DecidableRel rowGe := fun _a _b => inferInstanceAs (Decidable (_ = true))

/-- Months endpoint `get_available_months` (src/app.py lines 316-335):
the user's rows ordered by `reference_date DESC`, projected to the date
strings. -/
def get_available_months (s : Store) (uid : Nat) : List Str :=
  (((s.filter (fun r => r.user_id == uid)).insertionSort rowGe).map
    (fun r => r.reference_date))

/-- Error kinds of Python numeric conversion on the update path:
`float("abc")` raises `ValueError`; `float(None)` raises `TypeError`. -/
inductive PyNumErr where
  | valueError
  | typeError
deriving DecidableEq

/-- Strict conversion `float(value)` of the update handler (src/app.py
lines 369-379): a JSON number converts to itself, a string is parsed as a
decimal literal (`ValueError` on failure), and `null` raises `TypeError`. -/
def strictFloat : JVal → Except PyNumErr ℚ
  | .num q => .ok q
  | .str s =>
    match pyFloat? s with
    | some q => .ok q
    | none => .error .valueError
  | .null => .error .typeError

/-- Sequential strict conversion of the eleven update fields; the first
exception wins, as in the Python assignment sequence. -/
def parseFields : List JVal → Except PyNumErr (List ℚ)
  | [] => .ok []
  | v :: vs =>
    match strictFloat v with
    | .error e => .error e
    | .ok q =>
      match parseFields vs with
      | .error e => .error e
      | .ok qs => .ok (q :: qs)

/-- Overwrite the eleven monetary columns of a row with parsed values. -/
def setVals (r : FinancialData) (vals : List ℚ) : FinancialData :=
  match vals with
  | [c, b, ar, ib, oc, fa, iv, ap, lf, ins, ts] =>
    { r with
      cash_balance := c, bank_balance := b, accounts_receivable := ar,
      inventory_balance := ib, other_credits := oc, fixed_assets := fa,
      investments := iv, accounts_payable := ap, loans_financing := lf,
      installments_payable := ins, total_sales := ts }
  | _ => r

/-- Replace the first row matching `(uid, rd)`, as the update handler
mutates the row returned by `.first()`. -/
def replaceFirst (uid : Nat) (rd : Str) (vals : List ℚ) : Store → Store
  | [] => []
  | r :: rest =>
    if r.user_id == uid && r.reference_date == rd then setVals r vals :: rest
    else r :: replaceFirst uid rd vals rest

/-- Outcome of the update handler, mirroring its distinct responses:
missing/falsy reference date (400), row not found (404), conversion
`ValueError`/`KeyError` (400), an uncaught `TypeError` answered 500 by the
outer handler with a rollback, and success. -/
inductive UpdateResult where
  | missingDate
  | notFound
  | invalidField
  | typeErr500
  | updated
deriving DecidableEq

/-- Update handler `update_financial_data` (src/app.py lines 337-398):
look up the exact `(user_id, reference_date)` row, convert every field
with strict `float(...)`, commit on success.  On `ValueError` the handler
answers 400 before any commit; on `TypeError` the outer handler answers
500 and rolls back; either way the stored row is unchanged, because no
commit has happened. -/
def update_financial_data (s : Store) (uid : Nat) (p : Payload) : UpdateResult × Store :=
  if p.reference_date.isEmpty then (.missingDate, s)
  else
    match s.find? (fun r => r.user_id == uid && r.reference_date == p.reference_date) with
    | none => (.notFound, s)
    | some _ =>
      match parseFields (fieldVals p) with
      | .error .valueError => (.invalidField, s)
      | .error .typeError => (.typeErr500, s)
      | .ok vals => (.updated, replaceFirst uid p.reference_date vals s)

/-- Net equity of one snapshot (src/app.py lines 447-458): the seven
asset-like fields minus the three liability-like fields. -/
def equityOf (r : FinancialData) : ℚ :=
  r.cash_balance + r.bank_balance + r.accounts_receivable + r.inventory_balance +
    r.other_credits + r.fixed_assets + r.investments - r.accounts_payable -
    r.loans_financing - r.installments_payable

/-- Variation text of the metrics loop (src/app.py lines 460-465): `"N/A"`
for the first period; otherwise `(equity - previous) / previous * 100`
rendered as `f"{variation:+.2f}%"` when nonzero and as the literal
`"0,00%"` when zero.  A zero previous equity raises `ZeroDivisionError`
(modelled as `none`), which the outer handler answers with HTTP 500. -/
def variation_text (previous_equity : Option ℚ) (equity : ℚ) : Option Str :=
  match previous_equity with
  | none => some ("N/A".data)
  | some p =>
    if p = 0 then none
    else
      let v := (equity - p) / p * 100
      some (if v ≠ 0 then pySignedFmt2 v ++ ['%'] else ("0,00%".data))

/-- Result-over-revenue of the metrics loop (src/app.py line 468):
`equity / total_sales * 100` when sales are positive, else `0`. -/
def revenue_result_value (equity total_sales : ℚ) : ℚ :=
  if total_sales > 0 then equity / total_sales * 100 else 0

/-- Call `reference_date.strftime('%m/%Y')` of src/app.py line 471.  The
`reference_date` column is a `db.String(7)`, so the value is a Python
`str`, which has no `strftime` attribute: the call raises
`AttributeError` unconditionally.  Modelled as an always-failing option. -/
def strftime_mm_yyyy (_s : Str) : Option Str := none

/-- One row of the metrics response (src/app.py lines 470-476). -/
structure MetricRow where
  month : Str
  equity : Str
  equity_raw : ℚ
  variation : Str
  revenue_result : Str

/-- Row loop of `get_financial_results` (src/app.py lines 442-478),
carrying `previous_equity` across iterations; `none` models an exception
escaping the loop (`ZeroDivisionError` or the `strftime` attribute
error). -/
def seriesRows : List FinancialData → Option ℚ → Option (List MetricRow)
  | [], _ => some []
  | item :: rest, prev =>
    let equity := equityOf item
    match variation_text prev equity with
    | none => none
    | some vt =>
      match strftime_mm_yyyy item.reference_date with
      | none => none
      | some mo =>
        match seriesRows rest (some equity) with
        | none => none
        | some rs =>
          some ({ month := mo
                  equity := format_currency equity
                  equity_raw := equity
                  variation := vt
                  revenue_result := pyFmt2 (revenue_result_value equity item.total_sales) ++ ['%'] } :: rs)

/-- Outcome of `GET /api/financial-results`: a success body with a list of
rows, or the HTTP 500 error body produced by the `except` clause. -/
inductive MetricsResult where
  | success (data : List MetricRow)
  | error500

/-- Metrics endpoint `get_financial_results` (src/app.py lines 429-490):
the user's rows ordered by `reference_date` ascending; an empty series
short-circuits to a success response with an empty list; otherwise the row
loop runs and any exception is answered with HTTP 500. -/
def get_financial_results (s : Store) (uid : Nat) : MetricsResult :=
  let data := (s.filter (fun r => r.user_id == uid)).insertionSort rowLe
  if data.isEmpty then .success []
  else
    match seriesRows data none with
    | some rows => .success rows
    | none => .error500

/-- Character action of the three-step replace chain of `format_currency`
on strings without an underscore: comma and point exchange roles. -/
def swapCD (c : Char) : Char := if c = ',' then '.' else if c = '.' then ',' else c

/-- Canonical `MM/YYYY` rendering of a month/year pair, used to state the
specification's validation contract. -/
def periodChars (m y : Nat) : Str :=
  [Nat.digitChar (m / 10), Nat.digitChar (m % 10), '/',
   Nat.digitChar (y / 1000), Nat.digitChar (y / 100 % 10),
   Nat.digitChar (y / 10 % 10), Nat.digitChar (y % 10)]

/-- Validity contract as the spec words it: the canonical string of a
month in 01..12 and a year in 2000..2099. -/
def specPeriodValid (l : Str) : Prop :=
  ∃ m y, 1 ≤ m ∧ m ≤ 12 ∧ 2000 ≤ y ∧ y ≤ 2099 ∧ l = periodChars m y

/-- Chronological key of a period string, per the spec's most-recent-first
reading: the year is the major component. -/
def chronKey (l : Str) : Nat :=
  match splitSlash l with
  | [m, y] => 100 * natOfDigits y + natOfDigits m
  | _ => 0

/-- Assertion that a period list is sorted most-recent-first in the
chronological (year, month) order. -/
def chronDesc (l : List Str) : Prop :=
  l.Pairwise (fun a b => chronKey b ≤ chronKey a)

/-- Store invariant: every stored period passes the create-path validation
(hence is canonical zero-padded `MM/YYYY`), and no two rows share
`(user_id, reference_date)`. -/
def StoreInv (s : Store) : Prop :=
  (∀ r ∈ s, validatePeriod r.reference_date = true) ∧
    s.Pairwise (fun a b => ¬(a.user_id = b.user_id ∧ a.reference_date = b.reference_date))

theorem isDigitCh_iff {c : Char} : isDigitCh c = true ↔ 48 ≤ c.toNat ∧ c.toNat ≤ 57 := by
  simp [isDigitCh]

theorem ne_char_of_toNat {c d : Char} (h : c.toNat ≠ d.toNat) : c ≠ d :=
  fun he => h (by rw [he])

theorem digit_char_facts : ∀ d, d < 10 →
    digitVal (Nat.digitChar d) = d ∧ isDigitCh (Nat.digitChar d) = true := by decide

theorem digitVal_digitChar {d : Nat} (h : d < 10) : digitVal (Nat.digitChar d) = d :=
  (digit_char_facts d h).1

theorem isDigitCh_digitChar {d : Nat} (h : d < 10) : isDigitCh (Nat.digitChar d) = true :=
  (digit_char_facts d h).2

theorem digit_ne_comma {c : Char} (hc : isDigitCh c = true) : c ≠ ',' := by
  rw [isDigitCh_iff] at hc
  exact ne_char_of_toNat (show c.toNat ≠ 44 by omega)

theorem digit_ne_point {c : Char} (hc : isDigitCh c = true) : c ≠ '.' := by
  rw [isDigitCh_iff] at hc
  exact ne_char_of_toNat (show c.toNat ≠ 46 by omega)

theorem digit_ne_R {c : Char} (hc : isDigitCh c = true) : c ≠ 'R' := by
  rw [isDigitCh_iff] at hc
  exact ne_char_of_toNat (show c.toNat ≠ 82 by omega)

theorem digit_ne_under {c : Char} (hc : isDigitCh c = true) : c ≠ '_' := by
  rw [isDigitCh_iff] at hc
  exact ne_char_of_toNat (show c.toNat ≠ 95 by omega)

theorem digit_ne_minus {c : Char} (hc : isDigitCh c = true) : c ≠ '-' := by
  rw [isDigitCh_iff] at hc
  exact ne_char_of_toNat (show c.toNat ≠ 45 by omega)

theorem digit_ne_plus {c : Char} (hc : isDigitCh c = true) : c ≠ '+' := by
  rw [isDigitCh_iff] at hc
  exact ne_char_of_toNat (show c.toNat ≠ 43 by omega)

theorem digit_ne_slash {c : Char} (hc : isDigitCh c = true) : c ≠ '/' := by
  rw [isDigitCh_iff] at hc
  exact ne_char_of_toNat (show c.toNat ≠ 47 by omega)

theorem digit_not_space {c : Char} (hc : isDigitCh c = true) : isPySpace c = false := by
  have h32 : c ≠ ' ' := by
    rw [isDigitCh_iff] at hc
    exact ne_char_of_toNat (show c.toNat ≠ 32 by omega)
  have h9 : c ≠ '\t' := by
    rw [isDigitCh_iff] at hc
    exact ne_char_of_toNat (show c.toNat ≠ 9 by omega)
  have h10 : c ≠ '\n' := by
    rw [isDigitCh_iff] at hc
    exact ne_char_of_toNat (show c.toNat ≠ 10 by omega)
  have h13 : c ≠ '\r' := by
    rw [isDigitCh_iff] at hc
    exact ne_char_of_toNat (show c.toNat ≠ 13 by omega)
  have h11 : c.toNat ≠ 11 := by rw [isDigitCh_iff] at hc; omega
  have h12 : c.toNat ≠ 12 := by rw [isDigitCh_iff] at hc; omega
  simp [isPySpace, beq_eq_false_iff_ne, h32, h9, h10, h13, h11, h12]

theorem swapCD_digit {c : Char} (hc : isDigitCh c = true) : swapCD c = c := by
  rw [swapCD, if_neg (digit_ne_comma hc), if_neg (digit_ne_point hc)]

theorem digitsLE_zero (n : Nat) : digitsLE 0 n = [] := rfl

theorem digitsLE_succ (f n : Nat) :
    digitsLE (f + 1) n = if n = 0 then [] else n % 10 :: digitsLE f (n / 10) := rfl

theorem digitsLE_lt10 : ∀ fuel n d, d ∈ digitsLE fuel n → d < 10 := by
  intro fuel
  induction fuel with
  | zero => intro n d h; simp [digitsLE_zero] at h
  | succ f ih =>
    intro n d h
    rw [digitsLE_succ] at h
    by_cases hn : n = 0
    · simp [hn] at h
    · rw [if_neg hn] at h
      rcases List.mem_cons.mp h with h1 | h2
      · subst h1; omega
      · exact ih _ _ h2

theorem digitsLE_val : ∀ fuel n, n ≤ fuel →
    (digitsLE fuel n).foldr (fun d a => 10 * a + d) 0 = n := by
  intro fuel
  induction fuel with
  | zero => intro n h; interval_cases n; rfl
  | succ f ih =>
    intro n h
    rw [digitsLE_succ]
    by_cases hn : n = 0
    · simp [hn]
    · rw [if_neg hn, List.foldr_cons, ih (n / 10) (by omega)]
      omega

theorem natDigitsLE_lt10 {n : Nat} : ∀ d ∈ natDigitsLE n, d < 10 := by
  intro d h
  rw [natDigitsLE] at h
  by_cases hn : n = 0
  · simp [hn] at h; omega
  · rw [if_neg hn] at h; exact digitsLE_lt10 n n d h

theorem natDigitsLE_val {n : Nat} :
    (natDigitsLE n).foldr (fun d a => 10 * a + d) 0 = n := by
  rw [natDigitsLE]
  by_cases hn : n = 0
  · simp [hn]
  · rw [if_neg hn]; exact digitsLE_val n n le_rfl

theorem natDigitsLE_ne_nil {n : Nat} : natDigitsLE n ≠ [] := by
  rw [natDigitsLE]
  by_cases hn : n = 0
  · simp [hn]
  · rw [if_neg hn]
    obtain ⟨f, rfl⟩ : ∃ f, n = f + 1 := ⟨n - 1, by omega⟩
    rw [digitsLE_succ, if_neg hn]
    simp

theorem natChars_digits {n : Nat} : ∀ c ∈ natChars n, isDigitCh c = true := by
  intro c h
  rw [natChars] at h
  rw [List.mem_reverse, List.mem_map] at h
  obtain ⟨d, hd, rfl⟩ := h
  exact isDigitCh_digitChar (natDigitsLE_lt10 d hd)

theorem foldr_digitChar (dl : List Nat) (h : ∀ d ∈ dl, d < 10) :
    (dl.map Nat.digitChar).foldr (fun c a => 10 * a + digitVal c) 0 =
      dl.foldr (fun d a => 10 * a + d) 0 := by
  induction dl with
  | nil => rfl
  | cons d rest ih =>
    simp only [List.map_cons, List.foldr_cons]
    rw [ih (fun x hx => h x (List.mem_cons_of_mem d hx)),
      digitVal_digitChar (h d (List.mem_cons_self d rest))]

theorem natOfDigits_natChars {n : Nat} : natOfDigits (natChars n) = n := by
  rw [natOfDigits, natChars, List.foldl_reverse, foldr_digitChar _ (fun d hd => natDigitsLE_lt10 d hd)]
  exact natDigitsLE_val

theorem natChars_ne_nil {n : Nat} : natChars n ≠ [] := by
  rw [natChars]
  simp only [ne_eq, List.reverse_eq_nil_iff, List.map_eq_nil_iff]
  exact natDigitsLE_ne_nil

theorem natOfDigits_two0 {n : Nat} (h : n < 100) : natOfDigits (two0 n) = n := by
  have h1 : n / 10 < 10 := by omega
  have h2 : n % 10 < 10 := by omega
  rw [two0, natOfDigits]
  simp only [List.foldl_cons, List.foldl_nil]
  rw [digitVal_digitChar h1, digitVal_digitChar h2]
  omega

theorem two0_digits {n : Nat} (h : n < 100) : ∀ c ∈ two0 n, isDigitCh c = true := by
  have h1 : n / 10 < 10 := by omega
  have h2 : n % 10 < 10 := by omega
  intro c hm
  rw [two0] at hm
  rcases List.mem_cons.mp hm with hc | hm2
  · subst hc; exact isDigitCh_digitChar h1
  · rcases List.mem_cons.mp hm2 with hc | hm3
    · subst hc; exact isDigitCh_digitChar h2
    · simp at hm3

theorem replace3_eq_map (l : Str) (h : ∀ c ∈ l, c ≠ '_') :
    replaceChar '_' '.' (replaceChar '.' ',' (replaceChar ',' '_' l)) = l.map swapCD := by
  simp only [replaceChar, List.map_map]
  apply List.map_congr_left
  intro a ha
  simp only [Function.comp_apply, swapCD]
  by_cases h1 : a = ','
  · simp [h1]
  · by_cases h2 : a = '.'
    · simp [h1, h2]
    · simp [h1, h2, h a ha]

theorem map_swapCD_digits (l : Str) (h : ∀ c ∈ l, isDigitCh c = true) :
    l.map swapCD = l :=
  (List.map_congr_left fun a ha => swapCD_digit (h a ha)).trans (List.map_id l)

theorem filter_ne_point_digits (l : Str) (h : ∀ c ∈ l, isDigitCh c = true) :
    l.filter (fun c => c != '.') = l :=
  List.filter_eq_self.mpr fun a ha => by
    simp only [bne_iff_ne, ne_eq, decide_eq_true_eq]
    exact digit_ne_point (h a ha)

theorem removeRS_no_R (l : Str) (h : ∀ c ∈ l, c ≠ 'R') : removeRS l = l := by
  induction l with
  | nil => rfl
  | cons c rest ih =>
    have hc : c ≠ 'R' := h c (List.mem_cons_self c rest)
    cases rest with
    | nil => rfl
    | cons d r2 =>
      rw [removeRS, if_neg (fun hand => hc hand.1),
        ih (fun x hx => h x (List.mem_cons_of_mem c hx))]

theorem removeRS_RS (t : Str) : removeRS ('R' :: '$' :: t) = removeRS t := by
  rw [removeRS, if_pos ⟨rfl, rfl⟩]

theorem dropWhile_all_false (p : Char → Bool) (l : Str) (h : ∀ c ∈ l, p c = false) :
    l.dropWhile p = l := by
  cases l with
  | nil => rfl
  | cons c rest =>
    rw [List.dropWhile_cons]
    simp [h c (List.mem_cons_self c rest)]

theorem pyStrip_no_space (l : Str) (h : ∀ c ∈ l, isPySpace c = false) : pyStrip l = l := by
  rw [pyStrip, dropWhile_all_false _ l h,
    dropWhile_all_false _ _ (fun c hc => h c (List.mem_reverse.mp hc)), List.reverse_reverse]

theorem pyStrip_space_cons (l : Str) (h : ∀ c ∈ l, isPySpace c = false) :
    pyStrip (' ' :: l) = l := by
  rw [pyStrip, List.dropWhile_cons]
  rw [if_pos (show isPySpace ' ' = true from rfl), dropWhile_all_false _ l h,
    dropWhile_all_false _ _ (fun c hc => h c (List.mem_reverse.mp hc)), List.reverse_reverse]

theorem takeWhile_append_true (p : Char → Bool) (l1 l2 : Str) (h : ∀ c ∈ l1, p c = true) :
    (l1 ++ l2).takeWhile p = l1 ++ l2.takeWhile p := by
  induction l1 with
  | nil => rfl
  | cons c rest ih =>
    have hc := h c (List.mem_cons_self c rest)
    simp only [List.cons_append, List.takeWhile_cons, hc, if_true]
    rw [ih (fun x hx => h x (List.mem_cons_of_mem c hx))]

theorem dropWhile_append_true (p : Char → Bool) (l1 l2 : Str) (h : ∀ c ∈ l1, p c = true) :
    (l1 ++ l2).dropWhile p = l2.dropWhile p := by
  induction l1 with
  | nil => rfl
  | cons c rest ih =>
    have hc := h c (List.mem_cons_self c rest)
    simp only [List.cons_append, List.dropWhile_cons, hc, if_true]
    exact ih (fun x hx => h x (List.mem_cons_of_mem c hx))

theorem takeWhile_all_true (p : Char → Bool) (l : Str) (h : ∀ c ∈ l, p c = true) :
    l.takeWhile p = l := by
  have := takeWhile_append_true p l [] h
  simpa using this

theorem dropWhile_all_true (p : Char → Bool) (l : Str) (h : ∀ c ∈ l, p c = true) :
    l.dropWhile p = [] := by
  have := dropWhile_append_true p l [] h
  simpa using this

theorem takeWhile_digits_stop (l1 : Str) (x : Char) (l2 : Str)
    (h1 : ∀ c ∈ l1, isDigitCh c = true) (hx : isDigitCh x = false) :
    (l1 ++ x :: l2).takeWhile isDigitCh = l1 ∧
      (l1 ++ x :: l2).dropWhile isDigitCh = x :: l2 := by
  constructor
  · rw [takeWhile_append_true _ l1 _ h1, List.takeWhile_cons, hx]
    simp
  · rw [dropWhile_append_true _ l1 _ h1, List.dropWhile_cons, hx]
    simp

theorem group3_filter_swap : (dl : Str) → (∀ c ∈ dl, isDigitCh c = true) →
    (List.map swapCD (group3 dl)).filter (fun c => c != '.') = dl
  | [], _ => rfl
  | [a], h => by
    rw [show group3 [a] = [a] from rfl, map_swapCD_digits _ h, filter_ne_point_digits _ h]
  | [a, b], h => by
    rw [show group3 [a, b] = [a, b] from rfl, map_swapCD_digits _ h, filter_ne_point_digits _ h]
  | [a, b, c], h => by
    rw [show group3 [a, b, c] = [a, b, c] from rfl, map_swapCD_digits _ h,
      filter_ne_point_digits _ h]
  | a :: b :: c :: d :: rest, h => by
    have ha := h a (by simp)
    have hb := h b (by simp)
    have hc := h c (by simp)
    have hrest : ∀ x ∈ d :: rest, isDigitCh x = true := fun x hx => h x (by simp [hx])
    have ih := group3_filter_swap (d :: rest) hrest
    show (List.map swapCD (a :: b :: c :: ',' :: group3 (d :: rest))).filter
        (fun c => c != '.') = _
    simp only [List.map_cons]
    rw [swapCD_digit ha, swapCD_digit hb, swapCD_digit hc,
      show swapCD ',' = '.' from rfl]
    rw [List.filter_cons_of_pos (by simp [bne_iff_ne]; exact digit_ne_point ha),
      List.filter_cons_of_pos (by simp [bne_iff_ne]; exact digit_ne_point hb),
      List.filter_cons_of_pos (by simp [bne_iff_ne]; exact digit_ne_point hc),
      List.filter_cons_of_neg (by simp), ih]

theorem group3_chars : (l : Str) → ∀ c ∈ group3 l, c ∈ l ∨ c = ','
  | [] => by intro c h; exact absurd h (List.not_mem_nil c)
  | [a] => by intro c h; exact .inl h
  | [a, b] => by intro c h; exact .inl h
  | [a, b, x] => by intro c h; exact .inl h
  | a :: b :: x :: d :: rest => by
    intro c h
    rw [show group3 (a :: b :: x :: d :: rest) = a :: b :: x :: ',' :: group3 (d :: rest)
      from rfl] at h
    rcases List.mem_cons.mp h with rfl | h
    · exact .inl (by simp)
    · rcases List.mem_cons.mp h with rfl | h
      · exact .inl (by simp)
      · rcases List.mem_cons.mp h with rfl | h
        · exact .inl (by simp)
        · rcases List.mem_cons.mp h with rfl | h
          · exact .inr rfl
          · rcases group3_chars (d :: rest) c h with h2 | h2
            · exact .inl (by simp [List.mem_cons.mp h2])
            · exact .inr h2

theorem commaNat_chars {n : Nat} : ∀ c ∈ commaNat n, isDigitCh c = true ∨ c = ',' := by
  intro c h
  rw [commaNat, List.mem_reverse] at h
  rcases group3_chars _ c h with h2 | h2
  · rw [List.mem_map] at h2
    obtain ⟨d, hd, rfl⟩ := h2
    exact .inl (isDigitCh_digitChar (natDigitsLE_lt10 d hd))
  · exact .inr h2

theorem replaceChar_skip (pat rep : Char) (l : Str) (h : ∀ c ∈ l, c ≠ pat) :
    replaceChar pat rep l = l :=
  (List.map_congr_left fun a ha => if_neg (h a ha)).trans (List.map_id l)

theorem pyCommaFmt2_cents (n : ℤ) :
    pyCommaFmt2 ((n : ℚ) / 100) =
      (if n < 0 then ['-'] else []) ++ commaNat (n.natAbs / 100) ++
        '.' :: two0 (n.natAbs % 100) := by
  have h1 : ((n : ℚ) / 100) * 100 = (n : ℚ) := div_mul_cancel₀ _ (by norm_num)
  have h2 : round (((n : ℚ) / 100) * 100) = n := by rw [h1]; exact round_intCast n
  have h3 : ((n : ℚ) / 100 < 0) ↔ (n < 0) := by
    rw [div_lt_iff₀ (by norm_num : (0 : ℚ) < 100), zero_mul, Int.cast_lt_zero]
  rw [pyCommaFmt2, h2]
  by_cases hn : n < 0
  · rw [if_pos (h3.mpr hn), if_pos hn]
  · rw [if_neg (fun hx => hn (h3.mp hx)), if_neg hn]

theorem format_currency_cents (n : ℤ) :
    format_currency ((n : ℚ) / 100) =
      'R' :: '$' :: ' ' ::
        ((if n < 0 then ['-'] else []) ++
          (List.map swapCD (commaNat (n.natAbs / 100)) ++ ',' :: two0 (n.natAbs % 100))) := by
  have hfp : n.natAbs % 100 < 100 := Nat.mod_lt _ (by omega)
  have hrs : ("R$ ".data) = ['R', '$', ' '] := rfl
  rw [format_currency, pyCommaFmt2_cents, hrs]
  rw [replace3_eq_map]
  · simp only [List.map_append, List.map_cons, List.map_nil]
    rw [show swapCD 'R' = 'R' from rfl, show swapCD '$' = '$' from rfl,
      show swapCD ' ' = ' ' from rfl, show swapCD '.' = ',' from rfl,
      map_swapCD_digits _ (two0_digits hfp)]
    by_cases hn : n < 0
    · simp [hn, swapCD, List.append_assoc]
    · simp [hn, List.append_assoc]
  · intro c hc
    simp only [List.cons_append, List.nil_append, List.mem_cons, List.mem_append] at hc
    rcases hc with rfl | rfl | rfl | (hif | hcn) | rfl | htw
    · decide
    · decide
    · decide
    · by_cases hn : n < 0
      · rw [if_pos hn] at hif
        simp only [List.mem_singleton] at hif
        subst hif; decide
      · rw [if_neg hn] at hif
        simp at hif
    · rcases commaNat_chars c hcn with hd | rfl
      · exact digit_ne_under hd
      · decide
    · decide
    · exact digit_ne_under (two0_digits hfp c htw)

theorem pyFloat_body_pos (ipn fpn : Nat) (hfp : fpn < 100) :
    pyFloat? (natChars ipn ++ '.' :: two0 fpn) = some ((ipn : ℚ) + (fpn : ℚ) / 100) := by
  have hdig := natChars_digits (n := ipn)
  have htw := two0_digits hfp
  have hnosp : ∀ c ∈ natChars ipn ++ '.' :: two0 fpn, isPySpace c = false := by
    intro c hc
    rcases List.mem_append.mp hc with h | h
    · exact digit_not_space (hdig c h)
    · rcases List.mem_cons.mp h with rfl | h
      · rfl
      · exact digit_not_space (htw c h)
  obtain ⟨c0, r0, hc0⟩ := List.exists_cons_of_ne_nil (natChars_ne_nil (n := ipn))
  have hc0d : isDigitCh c0 = true := hdig c0 (by rw [hc0]; exact List.mem_cons_self c0 r0)
  have h1 : pyStrip (natChars ipn ++ '.' :: two0 fpn) = natChars ipn ++ '.' :: two0 fpn :=
    pyStrip_no_space _ hnosp
  have h2 : splitSign (natChars ipn ++ '.' :: two0 fpn) =
      (false, natChars ipn ++ '.' :: two0 fpn) := by
    rw [hc0, List.cons_append, splitSign, if_neg (digit_ne_minus hc0d),
      if_neg (digit_ne_plus hc0d)]
  have h3 := takeWhile_digits_stop (natChars ipn) '.' (two0 fpn) hdig rfl
  have h4 : (two0 fpn).takeWhile isDigitCh = two0 fpn := takeWhile_all_true _ _ htw
  have h5 : (two0 fpn).dropWhile isDigitCh = [] := dropWhile_all_true _ _ htw
  have h6 : (natChars ipn).isEmpty = false := by
    cases hcc : natChars ipn with
    | nil => exact absurd hcc natChars_ne_nil
    | cons x xs => rfl
  simp only [pyFloat?, h1, h2, h3.1, h3.2, h4, h5]
  simp only [List.isEmpty_nil, h6, Bool.false_and, Bool.not_false, Bool.and_self, if_true]
  rw [natOfDigits_natChars, natOfDigits_two0 hfp]
  norm_num [two0]

theorem pyFloat_body_neg (ipn fpn : Nat) (hfp : fpn < 100) :
    pyFloat? ('-' :: (natChars ipn ++ '.' :: two0 fpn)) =
      some (-((ipn : ℚ) + (fpn : ℚ) / 100)) := by
  have hdig := natChars_digits (n := ipn)
  have htw := two0_digits hfp
  have hnosp : ∀ c ∈ '-' :: (natChars ipn ++ '.' :: two0 fpn), isPySpace c = false := by
    intro c hc
    rcases List.mem_cons.mp hc with rfl | hc
    · rfl
    · rcases List.mem_append.mp hc with h | h
      · exact digit_not_space (hdig c h)
      · rcases List.mem_cons.mp h with rfl | h
        · rfl
        · exact digit_not_space (htw c h)
  have h1 : pyStrip ('-' :: (natChars ipn ++ '.' :: two0 fpn)) =
      '-' :: (natChars ipn ++ '.' :: two0 fpn) := pyStrip_no_space _ hnosp
  have h2 : splitSign ('-' :: (natChars ipn ++ '.' :: two0 fpn)) =
      (true, natChars ipn ++ '.' :: two0 fpn) := by
    rw [splitSign, if_pos rfl]
  have h3 := takeWhile_digits_stop (natChars ipn) '.' (two0 fpn) hdig rfl
  have h4 : (two0 fpn).takeWhile isDigitCh = two0 fpn := takeWhile_all_true _ _ htw
  have h5 : (two0 fpn).dropWhile isDigitCh = [] := dropWhile_all_true _ _ htw
  have h6 : (natChars ipn).isEmpty = false := by
    cases hcc : natChars ipn with
    | nil => exact absurd hcc natChars_ne_nil
    | cons x xs => rfl
  simp only [pyFloat?, h1, h2, h3.1, h3.2, h4, h5]
  simp only [List.isEmpty_nil, h6, Bool.false_and, Bool.not_false, Bool.and_self, if_true]
  rw [natOfDigits_natChars, natOfDigits_two0 hfp]
  norm_num [two0]

theorem map_swapCD_commaNat_chars {n : Nat} :
    ∀ c ∈ List.map swapCD (commaNat n), isDigitCh c = true ∨ c = '.' := by
  intro c hc
  rw [List.mem_map] at hc
  obtain ⟨x, hx, rfl⟩ := hc
  rcases commaNat_chars x hx with hd | rfl
  · rw [swapCD_digit hd]; exact .inl hd
  · exact .inr rfl

theorem filter_map_swapCD_commaNat {n : Nat} :
    (List.map swapCD (commaNat n)).filter (fun c => c != '.') = natChars n := by
  have hdlc : ∀ c ∈ (natDigitsLE n).map Nat.digitChar, isDigitCh c = true := by
    intro c hc
    rw [List.mem_map] at hc
    obtain ⟨d, hd, rfl⟩ := hc
    exact isDigitCh_digitChar (natDigitsLE_lt10 d hd)
  rw [show commaNat n = (group3 ((natDigitsLE n).map Nat.digitChar)).reverse from rfl,
    List.map_reverse, List.filter_reverse, group3_filter_swap _ hdlc]
  rfl

theorem parse_chain_pos (ipn fpn : Nat) (hfp : fpn < 100) :
    process_currency (.str ('R' :: '$' :: ' ' ::
      (List.map swapCD (commaNat ipn) ++ ',' :: two0 fpn))) =
      (ipn : ℚ) + (fpn : ℚ) / 100 := by
  have hmc := map_swapCD_commaNat_chars (n := ipn)
  have htw := two0_digits hfp
  have hA : removeRS ('R' :: '$' :: ' ' ::
      (List.map swapCD (commaNat ipn) ++ ',' :: two0 fpn)) =
      ' ' :: (List.map swapCD (commaNat ipn) ++ ',' :: two0 fpn) := by
    rw [removeRS_RS]
    apply removeRS_no_R
    intro c hc
    rcases List.mem_cons.mp hc with rfl | hc
    · decide
    · rcases List.mem_append.mp hc with h | h
      · rcases hmc c h with hd | rfl
        · exact digit_ne_R hd
        · decide
      · rcases List.mem_cons.mp h with rfl | h
        · decide
        · exact digit_ne_R (htw c h)
  have hB : removeChar '.' (' ' :: (List.map swapCD (commaNat ipn) ++ ',' :: two0 fpn)) =
      ' ' :: (natChars ipn ++ ',' :: two0 fpn) := by
    rw [removeChar, List.filter_cons_of_pos (by decide), List.filter_append,
      show ((List.map swapCD (commaNat ipn)).filter (fun c => c != '.')) = natChars ipn from
        filter_map_swapCD_commaNat,
      List.filter_cons_of_pos (by decide), filter_ne_point_digits _ htw]
  have hC : replaceChar ',' '.' (' ' :: (natChars ipn ++ ',' :: two0 fpn)) =
      ' ' :: (natChars ipn ++ '.' :: two0 fpn) := by
    rw [replaceChar]
    simp only [List.map_cons, List.map_append, if_true, if_false]
    rw [show List.map (fun c => if c = ',' then '.' else c) (natChars ipn) =
        replaceChar ',' '.' (natChars ipn) from rfl,
      show List.map (fun c => if c = ',' then '.' else c) (two0 fpn) =
        replaceChar ',' '.' (two0 fpn) from rfl,
      replaceChar_skip _ _ _ (fun c hc => digit_ne_comma (natChars_digits c hc)),
      replaceChar_skip _ _ _ (fun c hc => digit_ne_comma (htw c hc))]
    rfl
  have hD : pyStrip (' ' :: (natChars ipn ++ '.' :: two0 fpn)) =
      natChars ipn ++ '.' :: two0 fpn := by
    apply pyStrip_space_cons
    intro c hc
    rcases List.mem_append.mp hc with h | h
    · exact digit_not_space (natChars_digits c h)
    · rcases List.mem_cons.mp h with rfl | h
      · rfl
      · exact digit_not_space (htw c h)
  simp only [process_currency]
  rw [hA, hB, hC, hD, pyFloat_body_pos ipn fpn hfp]

theorem parse_chain_neg (ipn fpn : Nat) (hfp : fpn < 100) :
    process_currency (.str ('R' :: '$' :: ' ' :: '-' ::
      (List.map swapCD (commaNat ipn) ++ ',' :: two0 fpn))) =
      -((ipn : ℚ) + (fpn : ℚ) / 100) := by
  have hmc := map_swapCD_commaNat_chars (n := ipn)
  have htw := two0_digits hfp
  have hA : removeRS ('R' :: '$' :: ' ' :: '-' ::
      (List.map swapCD (commaNat ipn) ++ ',' :: two0 fpn)) =
      ' ' :: '-' :: (List.map swapCD (commaNat ipn) ++ ',' :: two0 fpn) := by
    rw [removeRS_RS]
    apply removeRS_no_R
    intro c hc
    rcases List.mem_cons.mp hc with rfl | hc
    · decide
    · rcases List.mem_cons.mp hc with rfl | hc
      · decide
      · rcases List.mem_append.mp hc with h | h
        · rcases hmc c h with hd | rfl
          · exact digit_ne_R hd
          · decide
        · rcases List.mem_cons.mp h with rfl | h
          · decide
          · exact digit_ne_R (htw c h)
  have hB : removeChar '.' (' ' :: '-' :: (List.map swapCD (commaNat ipn) ++ ',' :: two0 fpn)) =
      ' ' :: '-' :: (natChars ipn ++ ',' :: two0 fpn) := by
    rw [removeChar, List.filter_cons_of_pos (by decide), List.filter_cons_of_pos (by decide),
      List.filter_append,
      show ((List.map swapCD (commaNat ipn)).filter (fun c => c != '.')) = natChars ipn from
        filter_map_swapCD_commaNat,
      List.filter_cons_of_pos (by decide), filter_ne_point_digits _ htw]
  have hC : replaceChar ',' '.' (' ' :: '-' :: (natChars ipn ++ ',' :: two0 fpn)) =
      ' ' :: '-' :: (natChars ipn ++ '.' :: two0 fpn) := by
    rw [replaceChar]
    simp only [List.map_cons, List.map_append, if_true, if_false]
    rw [show List.map (fun c => if c = ',' then '.' else c) (natChars ipn) =
        replaceChar ',' '.' (natChars ipn) from rfl,
      show List.map (fun c => if c = ',' then '.' else c) (two0 fpn) =
        replaceChar ',' '.' (two0 fpn) from rfl,
      replaceChar_skip _ _ _ (fun c hc => digit_ne_comma (natChars_digits c hc)),
      replaceChar_skip _ _ _ (fun c hc => digit_ne_comma (htw c hc))]
    rfl
  have hD : pyStrip (' ' :: '-' :: (natChars ipn ++ '.' :: two0 fpn)) =
      '-' :: (natChars ipn ++ '.' :: two0 fpn) := by
    apply pyStrip_space_cons
    intro c hc
    rcases List.mem_cons.mp hc with rfl | hc
    · rfl
    · rcases List.mem_append.mp hc with h | h
      · exact digit_not_space (natChars_digits c h)
      · rcases List.mem_cons.mp h with rfl | h
        · rfl
        · exact digit_not_space (htw c h)
  simp only [process_currency]
  rw [hA, hB, hC, hD, pyFloat_body_neg ipn fpn hfp]

theorem cents_sum (n : ℤ) :
    ((n.natAbs / 100 : Nat) : ℚ) + ((n.natAbs % 100 : Nat) : ℚ) / 100 =
      (n.natAbs : ℚ) / 100 := by
  have h2 : (n.natAbs / 100) * 100 + (n.natAbs % 100) = n.natAbs := by omega
  have h3 : ((n.natAbs / 100 : Nat) : ℚ) * 100 + ((n.natAbs % 100 : Nat) : ℚ) =
      (n.natAbs : ℚ) := by exact_mod_cast h2
  field_simp
  linarith [h3]

theorem process_format_cents (n : ℤ) :
    process_currency (.str (format_currency ((n : ℚ) / 100))) = (n : ℚ) / 100 := by
  have hfp : n.natAbs % 100 < 100 := Nat.mod_lt _ (by omega)
  rw [format_currency_cents]
  by_cases hn : n < 0
  · rw [if_pos hn]
    rw [show ((['-'] : Str) ++
        (List.map swapCD (commaNat (n.natAbs / 100)) ++ ',' :: two0 (n.natAbs % 100))) =
        '-' :: (List.map swapCD (commaNat (n.natAbs / 100)) ++ ',' :: two0 (n.natAbs % 100))
      from rfl]
    rw [parse_chain_neg _ _ hfp, cents_sum n]
    have habs : (n.natAbs : ℚ) = -(n : ℚ) := by
      have h1 : ((n.natAbs : ℤ)) = -n := Int.ofNat_natAbs_of_nonpos (le_of_lt hn)
      have h2 : (((n.natAbs : ℤ)) : ℚ) = ((-n : ℤ) : ℚ) := by rw [h1]
      push_cast at h2
      rw [Int.cast_natAbs, Int.cast_abs]
      exact h2
    rw [habs]
    ring
  · rw [if_neg hn]
    rw [show (([] : Str) ++
        (List.map swapCD (commaNat (n.natAbs / 100)) ++ ',' :: two0 (n.natAbs % 100))) =
        (List.map swapCD (commaNat (n.natAbs / 100)) ++ ',' :: two0 (n.natAbs % 100))
      from rfl]
    rw [parse_chain_pos _ _ hfp, cents_sum n]
    have habs : (n.natAbs : ℚ) = (n : ℚ) := by
      have h1 : ((n.natAbs : ℤ)) = n := Int.natAbs_of_nonneg (not_lt.mp hn)
      have h2 : (((n.natAbs : ℤ)) : ℚ) = ((n : ℤ) : ℚ) := by rw [h1]
      push_cast at h2
      rw [Int.cast_natAbs, Int.cast_abs]
      exact h2
    rw [habs]

theorem digitChar_eq_char {c : Char} {k : Nat} (hk : k < 10) (hc : c.toNat = 48 + k) :
    Nat.digitChar k = c := by
  have h := Char.ofNat_toNat c
  rw [hc] at h
  interval_cases k <;> (rw [← h]; decide)

theorem digitChar_toNat : ∀ d, d < 10 → (Nat.digitChar d).toNat = 48 + d := by decide

theorem validatePeriod_shape {l : Str} (h : validatePeriod l = true) :
    ∃ a b c4 c5, l = [a, b, '/', '2', '0', c4, c5] ∧
      ((a = '0' ∧ 49 ≤ b.toNat ∧ b.toNat ≤ 57) ∨ (a = '1' ∧ 48 ≤ b.toNat ∧ b.toNat ≤ 50)) ∧
      isDigitCh c4 = true ∧ isDigitCh c5 = true := by
  match l, h with
  | [a, b, s, c2, c3, c4, c5], h => ?_
  case _ =>
    rw [validatePeriod] at h
    simp only [Bool.and_eq_true, Bool.or_eq_true, beq_iff_eq, decide_eq_true_eq,
      isDigitCh] at h
    have hs : s = '/' := by tauto
    have h2 : c2 = '2' := by tauto
    have h3 : c3 = '0' := by tauto
    refine ⟨a, b, c4, c5, by rw [hs, h2, h3], by tauto, ?_, ?_⟩
    · rw [isDigitCh]
      simp only [Bool.and_eq_true, decide_eq_true_eq]
      tauto
    · rw [isDigitCh]
      simp only [Bool.and_eq_true, decide_eq_true_eq]
      tauto

theorem splitSlash_cons_ne {c : Char} (hc : c ≠ '/') (rest : Str) :
    splitSlash (c :: rest) =
      match splitSlash rest with
      | [] => [[c]]
      | h :: t => (c :: h) :: t := by
  rw [splitSlash, if_neg hc]

theorem splitSlash_ne_nil : ∀ l : Str, splitSlash l ≠ [] := by
  intro l
  induction l with
  | nil => simp [splitSlash]
  | cons c rest ih =>
    by_cases hc : c = '/'
    · subst hc
      rw [splitSlash, if_pos rfl]
      simp
    · rw [splitSlash_cons_ne hc]
      cases h : splitSlash rest <;> simp

theorem splitSlash_period (a b c4 c5 : Char) (ha : a ≠ '/') (hb : b ≠ '/')
    (h4 : c4 ≠ '/') (h5 : c5 ≠ '/') :
    splitSlash [a, b, '/', '2', '0', c4, c5] = [[a, b], ['2', '0', c4, c5]] := by
  have t5 : splitSlash [c5] = [[c5]] := by
    rw [splitSlash_cons_ne h5]
    rfl
  have t4 : splitSlash [c4, c5] = [[c4, c5]] := by
    rw [splitSlash_cons_ne h4, t5]
  have t3 : splitSlash ['0', c4, c5] = [['0', c4, c5]] := by
    rw [splitSlash_cons_ne (by decide), t4]
  have t2 : splitSlash ['2', '0', c4, c5] = [['2', '0', c4, c5]] := by
    rw [splitSlash_cons_ne (by decide), t3]
  have t1 : splitSlash ['/', '2', '0', c4, c5] = [[], ['2', '0', c4, c5]] := by
    rw [splitSlash, if_pos rfl, t2]
  have t0 : splitSlash [b, '/', '2', '0', c4, c5] = [[b], ['2', '0', c4, c5]] := by
    rw [splitSlash_cons_ne hb, t1]
  rw [splitSlash_cons_ne ha, t0]

theorem normalize_of_valid {l : Str} (h : validatePeriod l = true) : normalize_date l = l := by
  obtain ⟨a, b, c4, c5, rfl, hab, h4, h5⟩ := validatePeriod_shape h
  have ha_dig : isDigitCh a = true := by
    rcases hab with ⟨rfl, _⟩ | ⟨rfl, _⟩ <;> decide
  have hb_dig : isDigitCh b = true := by
    rw [isDigitCh]
    rcases hab with ⟨_, hb1, hb2⟩ | ⟨_, hb1, hb2⟩ <;> (simp only [Bool.and_eq_true, decide_eq_true_eq]; omega)
  have hstrip : pyStrip [a, b, '/', '2', '0', c4, c5] = [a, b, '/', '2', '0', c4, c5] := by
    apply pyStrip_no_space
    intro c hc
    simp only [List.mem_cons] at hc
    rcases hc with rfl | rfl | rfl | rfl | rfl | rfl | rfl | hemp
    · exact digit_not_space ha_dig
    · exact digit_not_space hb_dig
    · rfl
    · rfl
    · rfl
    · exact digit_not_space h4
    · exact digit_not_space h5
    · simp at hemp
  rw [normalize_date, hstrip, splitSlash_period a b c4 c5 (digit_ne_slash ha_dig)
    (digit_ne_slash hb_dig) (digit_ne_slash h4) (digit_ne_slash h5)]
  rfl

theorem validatePeriod_iff_spec (l : Str) : validatePeriod l = true ↔ specPeriodValid l := by
  constructor
  · intro h
    obtain ⟨a, b, c4, c5, rfl, hab, h4, h5⟩ := validatePeriod_shape h
    rw [isDigitCh_iff] at h4 h5
    rcases hab with ⟨rfl, hb1, hb2⟩ | ⟨rfl, hb1, hb2⟩
    · refine ⟨b.toNat - 48, 2000 + 10 * (c4.toNat - 48) + (c5.toNat - 48),
        by omega, by omega, by omega, by omega, ?_⟩
      rw [periodChars]
      have hm10 : (b.toNat - 48) / 10 = 0 := by omega
      have hmm : (b.toNat - 48) % 10 = b.toNat - 48 := by omega
      have hy1 : (2000 + 10 * (c4.toNat - 48) + (c5.toNat - 48)) / 1000 = 2 := by omega
      have hy2 : (2000 + 10 * (c4.toNat - 48) + (c5.toNat - 48)) / 100 % 10 = 0 := by omega
      have hy3 : (2000 + 10 * (c4.toNat - 48) + (c5.toNat - 48)) / 10 % 10 = c4.toNat - 48 := by
        omega
      have hy4 : (2000 + 10 * (c4.toNat - 48) + (c5.toNat - 48)) % 10 = c5.toNat - 48 := by omega
      rw [hm10, hmm, hy1, hy2, hy3, hy4,
        digitChar_eq_char (by omega) (show b.toNat = 48 + (b.toNat - 48) by omega),
        digitChar_eq_char (by omega) (show c4.toNat = 48 + (c4.toNat - 48) by omega),
        digitChar_eq_char (by omega) (show c5.toNat = 48 + (c5.toNat - 48) by omega)]
      rfl
    · refine ⟨10 + (b.toNat - 48), 2000 + 10 * (c4.toNat - 48) + (c5.toNat - 48),
        by omega, by omega, by omega, by omega, ?_⟩
      rw [periodChars]
      have hm10 : (10 + (b.toNat - 48)) / 10 = 1 := by omega
      have hmm : (10 + (b.toNat - 48)) % 10 = b.toNat - 48 := by omega
      have hy1 : (2000 + 10 * (c4.toNat - 48) + (c5.toNat - 48)) / 1000 = 2 := by omega
      have hy2 : (2000 + 10 * (c4.toNat - 48) + (c5.toNat - 48)) / 100 % 10 = 0 := by omega
      have hy3 : (2000 + 10 * (c4.toNat - 48) + (c5.toNat - 48)) / 10 % 10 = c4.toNat - 48 := by
        omega
      have hy4 : (2000 + 10 * (c4.toNat - 48) + (c5.toNat - 48)) % 10 = c5.toNat - 48 := by omega
      rw [hm10, hmm, hy1, hy2, hy3, hy4,
        digitChar_eq_char (by omega) (show b.toNat = 48 + (b.toNat - 48) by omega),
        digitChar_eq_char (by omega) (show c4.toNat = 48 + (c4.toNat - 48) by omega),
        digitChar_eq_char (by omega) (show c5.toNat = 48 + (c5.toNat - 48) by omega)]
      rfl
  · rintro ⟨m, y, hm1, hm2, hy1, hy2, rfl⟩
    have hy1000 : y / 1000 = 2 := by omega
    have hy100 : y / 100 % 10 = 0 := by omega
    have hc4 : isDigitCh (Nat.digitChar (y / 10 % 10)) = true :=
      isDigitCh_digitChar (Nat.mod_lt _ (by omega))
    have hc5 : isDigitCh (Nat.digitChar (y % 10)) = true :=
      isDigitCh_digitChar (Nat.mod_lt _ (by omega))
    rw [periodChars]
    simp only [validatePeriod]
    rw [hy1000, hy100]
    simp only [show Nat.digitChar 2 = '2' from rfl, show Nat.digitChar 0 = '0' from rfl,
      hc4, hc5]
    simp only [Bool.and_eq_true, Bool.or_eq_true, beq_iff_eq, beq_self_eq_true,
      decide_eq_true_eq, and_true, true_and]
    by_cases hm : m ≤ 9
    · left
      have h10 : m / 10 = 0 := by omega
      have hmm : m % 10 = m := by omega
      rw [h10, hmm, digitChar_toNat m (by omega)]
      exact ⟨rfl, by omega, by omega⟩
    · right
      have h10 : m / 10 = 1 := by omega
      have hmm : m % 10 = m - 10 := by omega
      rw [h10, hmm, digitChar_toNat (m - 10) (by omega)]
      exact ⟨rfl, by omega, by omega⟩

theorem add_preserves_inv (s : Store) (uid : Nat) (p : Payload) (h : StoreInv s) :
    StoreInv (add_financial_data s uid p).2 := by
  rcases hsp : splitSlash (pyStrip p.reference_date) with _ | ⟨m, t⟩
  · simp only [add_financial_data, hsp]; exact h
  · rcases t with _ | ⟨y, t2⟩
    · simp only [add_financial_data, hsp]; exact h
    · rcases t2 with _ | ⟨z, t3⟩
      · simp only [add_financial_data, hsp]
        by_cases hv : validatePeriod (zfill2 m ++ '/' :: y) = true
        · rw [if_pos hv]
          rcases hf : s.find?
              (fun r => r.user_id == uid && r.reference_date == (zfill2 m ++ '/' :: y))
            with _ | r
          · simp only [hf]
            constructor
            · intro r hr
              rcases List.mem_append.mp hr with hr | hr
              · exact h.1 r hr
              · rcases List.mem_cons.mp hr with rfl | hr
                · show validatePeriod (normalize_date (zfill2 m ++ '/' :: y)) = true
                  rw [normalize_of_valid hv]
                  exact hv
                · simp at hr
            · rw [List.pairwise_append]
              refine ⟨h.2, List.pairwise_singleton _ _, ?_⟩
              intro a ha b hb
              rcases List.mem_cons.mp hb with rfl | hb
              · rintro ⟨he1, he2⟩
                have hfind := List.find?_eq_none.mp hf a ha
                apply hfind
                simp only [Bool.and_eq_true, beq_iff_eq]
                refine ⟨he1, ?_⟩
                rw [he2]
                show normalize_date (zfill2 m ++ '/' :: y) = zfill2 m ++ '/' :: y
                exact normalize_of_valid hv
              · simp at hb
          · simp only [hf]
            exact h
        · rw [if_neg hv]
          exact h
      · simp only [add_financial_data, hsp]; exact h

theorem lexLe_nil (b : Str) : lexLe [] b = true := rfl

theorem lexLe_total : ∀ a b : Str, lexLe a b = true ∨ lexLe b a = true := by
  intro a
  induction a with
  | nil => intro b; exact .inl (lexLe_nil b)
  | cons x xs ih =>
    intro b
    cases b with
    | nil => exact .inr (lexLe_nil (x :: xs))
    | cons y ys =>
      rw [lexLe, lexLe]
      by_cases h1 : x.toNat < y.toNat
      · left; simp [h1]
      · by_cases h2 : x.toNat = y.toNat
        · rcases ih ys with h | h
          · left; simp [h1, h2, h]
          · right
            have h3 : ¬(y.toNat < x.toNat) := by omega
            simp [h3, h2.symm, h]
        · right
          have h3 : y.toNat < x.toNat := by omega
          simp [h3]

theorem lexLe_trans : ∀ a b c : Str, lexLe a b = true → lexLe b c = true →
    lexLe a c = true := by
  intro a
  induction a with
  | nil => intro b c _ _; exact lexLe_nil c
  | cons x xs ih =>
    intro b c hab hbc
    cases b with
    | nil => rw [lexLe] at hab; exact absurd hab (by simp)
    | cons y ys =>
      cases c with
      | nil => rw [lexLe] at hbc; exact absurd hbc (by simp)
      | cons z zs =>
        rw [lexLe] at hab hbc ⊢
        by_cases h1 : x.toNat < y.toNat
        · by_cases h2 : y.toNat < z.toNat
          · simp [show x.toNat < z.toNat by omega]
          · by_cases h3 : y.toNat = z.toNat
            · simp [show x.toNat < z.toNat by omega]
            · rw [if_neg h2, if_neg h3] at hbc
              simp at hbc
        · by_cases h1e : x.toNat = y.toNat
          · rw [if_neg h1, if_pos h1e] at hab
            by_cases h2 : y.toNat < z.toNat
            · simp [show x.toNat < z.toNat by omega]
            · by_cases h3 : y.toNat = z.toNat
              · rw [if_neg h2, if_pos h3] at hbc
                rw [if_neg (by omega : ¬(x.toNat < z.toNat)), if_pos (by omega : x.toNat = z.toNat)]
                exact ih ys zs hab hbc
              · rw [if_neg h2, if_neg h3] at hbc
                simp at hbc
          · rw [if_neg h1, if_neg h1e] at hab
            simp at hab

instance : IsTotal FinancialData rowLe :=
  ⟨fun a b => lexLe_total a.reference_date b.reference_date⟩

instance : IsTrans FinancialData rowLe :=
  ⟨fun a b c hab hbc => lexLe_trans _ _ _ hab hbc⟩

instance : IsTotal FinancialData rowGe :=
  ⟨fun a b => (lexLe_total b.reference_date a.reference_date).symm.symm |>.imp id id⟩

instance : IsTrans FinancialData rowGe :=
  ⟨fun a b c hab hbc => lexLe_trans _ _ _ hbc hab⟩

theorem parseFields_valueError (l : List JVal) (hnull : ∀ v ∈ l, v ≠ .null)
    (hfail : ∃ v ∈ l, strictFloat v = .error .valueError) :
    parseFields l = .error .valueError := by
  induction l with
  | nil => obtain ⟨v, hv, _⟩ := hfail; simp at hv
  | cons v vs ih =>
    rw [parseFields]
    rcases hsv : strictFloat v with e | q
    · cases e with
      | valueError => rfl
      | typeError =>
        exfalso
        apply hnull v (List.mem_cons_self v vs)
        cases v with
        | num q => simp [strictFloat] at hsv
        | str s =>
          rw [strictFloat] at hsv
          rcases h2 : pyFloat? s with _ | q2 <;> rw [h2] at hsv <;> simp at hsv
        | null => rfl
    · have hfail2 : ∃ w ∈ vs, strictFloat w = .error .valueError := by
        obtain ⟨w, hw, hwe⟩ := hfail
        rcases List.mem_cons.mp hw with rfl | hw2
        · rw [hsv] at hwe; simp at hwe
        · exact ⟨w, hw2, hwe⟩
      rw [ih (fun w hw => hnull w (List.mem_cons_of_mem v hw)) hfail2]

theorem seriesRows_cons (item : FinancialData) (rest : List FinancialData) (prev : Option ℚ) :
    seriesRows (item :: rest) prev = none := by
  rw [seriesRows]
  rcases hv : variation_text prev (equityOf item) with _ | vt
  · rfl
  · rfl

theorem metrics_nonempty_error (s : Store) (uid : Nat)
    (h : s.filter (fun r => r.user_id == uid) ≠ []) :
    get_financial_results s uid = .error500 := by
  rw [get_financial_results]
  rcases hd : (s.filter (fun r => r.user_id == uid)).insertionSort rowLe with _ | ⟨a, t⟩
  · exfalso
    apply h
    have hp := List.perm_insertionSort rowLe (s.filter (fun r => r.user_id == uid))
    rw [hd] at hp
    exact (List.Perm.nil_eq hp).symm
  · rw [hd]
    simp only [List.isEmpty_cons, if_false, Bool.false_eq_true]
    rw [seriesRows_cons]

theorem metrics_empty_success (s : Store) (uid : Nat)
    (h : s.filter (fun r => r.user_id == uid) = []) :
    get_financial_results s uid = .success [] := by
  rw [get_financial_results, h]
  rfl

/-- Row constructor with all monetary fields zero, for concrete stores. -/
def mkRow (uid : Nat) (rd : Str) : FinancialData :=
  { user_id := uid, reference_date := rd, cash_balance := 0, bank_balance := 0,
    accounts_receivable := 0, inventory_balance := 0, other_credits := 0,
    fixed_assets := 0, investments := 0, accounts_payable := 0, loans_financing := 0,
    installments_payable := 0, total_sales := 0 }

/-- Stored snapshot of 01/2024 with equity 1000 (cash only) and sales 5000. -/
def rowJan : FinancialData :=
  { mkRow 1 ("01/2024".data) with cash_balance := 1000, total_sales := 5000 }

/-- Stored snapshot of 02/2024 with equity 1100 and sales 5000. -/
def rowFeb : FinancialData :=
  { mkRow 1 ("02/2024".data) with cash_balance := 1100, total_sales := 5000 }

/-- Stored snapshot with equity 500 and zero total sales. -/
def rowZeroSales : FinancialData :=
  { mkRow 1 ("01/2024".data) with cash_balance := 500 }

/-- Create/update payload whose cash field is given and whose other ten
monetary fields are the raw JSON number zero. -/
def mkPayload (rd : Str) (cash : JVal) : Payload :=
  { reference_date := rd, cash_balance := cash, bank_balance := .num 0,
    accounts_receivable := .num 0, inventory_balance := .num 0, other_credits := .num 0,
    fixed_assets := .num 0, investments := .num 0, accounts_payable := .num 0,
    loans_financing := .num 0, installments_payable := .num 0, total_sales := .num 0 }

/-- Payload creating period 01/2024. -/
def payloadA : Payload := mkPayload ("01/2024".data) (.num 0)

/-- Payload creating period 1/2024 (unpadded month). -/
def payloadB : Payload := mkPayload ("1/2024".data) (.num 0)

/-- Payload whose cash field is the raw JSON number 1234.5. -/
def payloadNum : Payload := mkPayload ("03/2024".data) (.num ((2469 : ℚ) / 2))

/-- Payload with the out-of-range month 13. -/
def payloadBad13 : Payload := mkPayload ("13/2024".data) (.num 0)

/-- Update payload whose cash field is the non-numeric string `abc`. -/
def payloadBadStr : Payload := mkPayload ("01/2024".data) (.str ("abc".data))

/-- Update payload whose cash field is JSON `null`. -/
def payloadNull : Payload := mkPayload ("01/2024".data) .null

/-- Store with two rows whose periods straddle a year boundary. -/
def c3store : Store := [mkRow 1 ("01/2024".data), mkRow 1 ("12/2023".data)]

instance (s : Store) : Decidable (StoreInv s) := by
  unfold StoreInv
  infer_instance

theorem variation_ten : variation_text (some 1000) 1100 = some ("+10.00%".data) := by
  simp only [variation_text]
  rw [if_neg (by norm_num : ¬((1000 : ℚ) = 0))]
  rw [show ((1100 : ℚ) - 1000) / 1000 * 100 = 10 by norm_num]
  rw [if_pos (by norm_num : (10 : ℚ) ≠ 0)]
  rw [pySignedFmt2]
  rw [show round ((10 : ℚ) * 100) = (1000 : ℤ) by
    rw [show ((10 : ℚ) * 100) = ((1000 : ℤ) : ℚ) by norm_num, round_intCast]]
  rw [if_neg (by norm_num : ¬((10 : ℚ) < 0))]
  decide

/-- Claim C1: the claim expects `GET /metrics` to answer success with one
row per snapshot for a user with stored snapshots.  The code instead calls
`strftime` on the `reference_date` string (src/app.py line 471), raising
`AttributeError`, so the endpoint answers the 500 error body for every
nonempty series; here evaluated at a store holding one snapshot. -/
theorem claim_C1_metrics_error : get_financial_results [rowJan] 1 = .error500 := by
  apply metrics_nonempty_error
  rw [show ([rowJan].filter (fun r => r.user_id == 1)) = [rowJan] from rfl]
  simp

/-- Claim C4: the variation text of the metrics loop is `N/A` for the
first period and `+10.00%` for equity 1000 followed by 1100, as claimed;
but the endpoint itself crashes on the `strftime` attribute error before
emitting any row, so the claimed rows are never returned (500 instead). -/
theorem claim_C4_variation :
    variation_text none 1000 = some ("N/A".data) ∧
    variation_text (some 1000) 1100 = some ("+10.00%".data) ∧
    get_financial_results [rowJan, rowFeb] 1 = .error500 := by
  refine ⟨rfl, variation_ten, ?_⟩
  apply metrics_nonempty_error
  rw [show ([rowJan, rowFeb].filter (fun r => r.user_id == 1)) = [rowJan, rowFeb] from rfl]
  simp

/-- Claim C9: `revenue_result` is the claimed `equity / total_sales * 100`
for positive sales and 0 for zero sales, rendering as `0.00%`; but the
endpoint crashes on the `strftime` attribute error before emitting any
row, so the claimed row text is never returned (500 instead). -/
theorem claim_C9_revenue :
    revenue_result_value 500 0 = 0 ∧
    pyFmt2 (revenue_result_value 500 0) ++ ['%'] = ("0.00%".data) ∧
    get_financial_results [rowZeroSales] 1 = .error500 := by
  have h1 : revenue_result_value 500 0 = 0 := by
    rw [revenue_result_value, if_neg (by norm_num : ¬((0 : ℚ) > 0))]
  refine ⟨h1, ?_, ?_⟩
  · rw [h1, pyFmt2]
    rw [show round ((0 : ℚ) * 100) = (0 : ℤ) by
      rw [show ((0 : ℚ) * 100) = ((0 : ℤ) : ℚ) by norm_num, round_intCast]]
    rw [if_neg (by norm_num : ¬((0 : ℚ) < 0))]
    decide
  · apply metrics_nonempty_error
    rw [show ([rowZeroSales].filter (fun r => r.user_id == 1)) = [rowZeroSales] from rfl]
    simp

/-- Claim C10: a user with no stored snapshots gets a success response
with an empty data list from the metrics endpoint, not an error. -/
theorem claim_C10_empty_success (s : Store) (uid : Nat)
    (h : s.filter (fun r => r.user_id == uid) = []) :
    get_financial_results s uid = .success [] :=
  metrics_empty_success s uid h

theorem claim_C10_witness : get_financial_results [] 1 = .success [] :=
  claim_C10_empty_success [] 1 rfl

theorem format_ex : format_currency ((2469 : ℚ) / 2) = ("R$ 1.234,50".data) := by
  rw [show ((2469 : ℚ) / 2) = (((123450 : ℤ) : ℚ) / 100) by norm_num, format_currency_cents]
  decide

/-- Claim C5: the money round trip holds: parsing the rendering of any
two-decimal amount `n / 100` restores the amount, and the cited examples
`format(1234.5) = "R$ 1.234,50"` and `parse("R$ 1.234,50") = 1234.5` hold. -/
theorem claim_C5_roundtrip :
    (∀ n : ℤ, process_currency (.str (format_currency ((n : ℚ) / 100))) = (n : ℚ) / 100) ∧
    format_currency ((2469 : ℚ) / 2) = ("R$ 1.234,50".data) ∧
    process_currency (.str ("R$ 1.234,50".data)) = (2469 : ℚ) / 2 := by
  refine ⟨process_format_cents, format_ex, ?_⟩
  rw [← format_ex, show ((2469 : ℚ) / 2) = (((123450 : ℤ) : ℚ) / 100) by norm_num,
    process_format_cents]

/-- Claim C2 counterexample: a monetary field supplied as the raw JSON
number 1234.5 is stored as 0 by the create handler (the `AttributeError`
fallback of `process_currency`), not as the supplied amount. -/
theorem claim_C2_counterexample :
    ((add_financial_data [] 1 payloadNum).2.map (fun r => r.cash_balance)) = [0] ∧
    ¬((2469 : ℚ) / 2 = 0) := by
  exact ⟨rfl, by norm_num⟩

/-- Claim C2 amended: on create, formatted currency text stores the parsed
numeric amount, but a raw numeric (non-string) JSON value falls into the
silent-zero fallback and stores 0. -/
theorem claim_C2_amended :
    (∀ q : ℚ, process_currency (.num q) = 0) ∧
    (∀ n : ℤ, process_currency (.str (format_currency ((n : ℚ) / 100))) = (n : ℚ) / 100) :=
  ⟨fun _ => rfl, process_format_cents⟩

/-- Claim C3 counterexample: with stored periods 12/2023 and 01/2024 the
months endpoint returns `["12/2023", "01/2024"]` (descending by the raw
string, month-major), which is not descending chronologically by
(year, month): 01/2024 is the more recent period. -/
theorem claim_C3_counterexample :
    get_available_months c3store 1 = [("12/2023".data), ("01/2024".data)] ∧
    ¬ chronDesc (get_available_months c3store 1) := by
  have h1 : get_available_months c3store 1 = [("12/2023".data), ("01/2024".data)] := by
    decide
  refine ⟨h1, ?_⟩
  rw [h1, chronDesc]
  decide

/-- Claim C3 amended: the months endpoint returns exactly the user's
stored period strings, ordered descending in the lexicographic
(code-point) string order used by `ORDER BY reference_date DESC` — not in
chronological (year, month) order. -/
theorem claim_C3_amended (s : Store) (uid : Nat) :
    (get_available_months s uid).Pairwise (fun a b => lexLe b a = true) ∧
    (get_available_months s uid).Perm
      ((s.filter (fun r => r.user_id == uid)).map (fun r => r.reference_date)) := by
  constructor
  · rw [get_available_months, List.pairwise_map]
    exact List.sorted_insertionSort rowGe _
  · rw [get_available_months]
    exact (List.perm_insertionSort rowGe _).map _

/-- Claim C7: the create-path period validation accepts exactly the
canonical strings of a month 01..12 with a year 2000..2099, and a payload
with period `13/2024` is rejected with the invalid-period error, leaving
the store unchanged. -/
theorem claim_C7_validate :
    (∀ l : Str, validatePeriod l = true ↔ specPeriodValid l) ∧
    (∀ (s : Store) (uid : Nat) (p : Payload), p.reference_date = ("13/2024".data) →
      add_financial_data s uid p = (.invalidPeriod, s)) := by
  refine ⟨validatePeriod_iff_spec, ?_⟩
  intro s uid p h
  obtain ⟨rd, f1, f2, f3, f4, f5, f6, f7, f8, f9, f10, f11⟩ := p
  replace h : rd = ("13/2024".data) := h
  subst h
  rfl

theorem claim_C7_witness :
    add_financial_data [] 1 payloadBad13 = (.invalidPeriod, []) :=
  claim_C7_validate.2 [] 1 payloadBad13 rfl

/-- Claim C6: adding a snapshot preserves the invariant that every stored
period is canonical validated `MM/YYYY` and no two rows share
`(user_id, period)`; and creating `01/2024` then `1/2024` for the same
user fails with the duplicate-period error, leaving the store unchanged. -/
theorem claim_C6_unique_canonical :
    (∀ (s : Store) (uid : Nat) (p : Payload), StoreInv s →
      StoreInv (add_financial_data s uid p).2) ∧
    (add_financial_data (add_financial_data [] 1 payloadA).2 1 payloadB =
      (.duplicatePeriod, (add_financial_data [] 1 payloadA).2)) := by
  exact ⟨add_preserves_inv, rfl⟩

theorem claim_C6_witness :
    StoreInv ([] : Store) ∧ StoreInv (add_financial_data [] 1 payloadA).2 :=
  ⟨by decide, claim_C6_unique_canonical.1 [] 1 payloadA (by decide)⟩

/-- Claim C8 counterexample: an update whose cash field is JSON `null` is
non-numeric, yet the handler does not answer the InvalidField 400 error:
`float(None)` raises `TypeError`, which the `except (ValueError, KeyError)`
clause does not catch, so the outer handler answers 500 (the store is
still unchanged). -/
theorem claim_C8_counterexample :
    update_financial_data [rowJan] 1 payloadNull = (.typeErr500, [rowJan]) ∧
    (UpdateResult.typeErr500 ≠ UpdateResult.invalidField) := by
  exact ⟨rfl, by decide⟩

/-- Claim C8 amended: on update of an existing snapshot, a monetary field
that is a non-numeric string makes the handler reject with the
InvalidField 400 error and leave the store unchanged — there is no
silent-zero fallback on the update path; a `null` field instead escapes as
an uncaught `TypeError` answered 500. -/
theorem claim_C8_strict_update (s : Store) (uid : Nat) (p : Payload)
    (h1 : ¬(p.reference_date.isEmpty = true))
    (h2 : (s.find? (fun r => r.user_id == uid &&
      r.reference_date == p.reference_date)).isSome = true)
    (h3 : ∀ v ∈ fieldVals p, v ≠ .null)
    (h4 : ∃ v ∈ fieldVals p, strictFloat v = .error .valueError) :
    update_financial_data s uid p = (.invalidField, s) := by
  rw [update_financial_data, if_neg h1]
  rcases hf : s.find? (fun r => r.user_id == uid && r.reference_date == p.reference_date)
    with _ | r
  · rw [hf] at h2
    simp at h2
  · simp only [hf, parseFields_valueError (fieldVals p) h3 h4]

instance : DecidableEq (Except PyNumErr ℚ)
  | .error e1, .error e2 =>
    match decEq e1 e2 with
    | isTrue h => isTrue (by rw [h])
    | isFalse h => isFalse (by intro hh; injection hh; contradiction)
  | .error _, .ok _ => isFalse (fun h => Except.noConfusion h)
  | .ok _, .error _ => isFalse (fun h => Except.noConfusion h)
  | .ok q1, .ok q2 =>
    match decEq q1 q2 with
    | isTrue h => isTrue (by rw [h])
    | isFalse h => isFalse (by intro hh; injection hh; contradiction)

theorem claim_C8_witness :
    update_financial_data [rowJan] 1 payloadBadStr = (.invalidField, [rowJan]) :=
  claim_C8_strict_update [rowJan] 1 payloadBadStr (by decide) (by decide) (by decide)
    (by decide)
